import Mathlib

/-
Verification development for the MFA CMS web-content check automation
(`src/sync_missing_articles.py`).  The Python source is shallowly embedded:
pure text functions become Lean functions on `String` / `List Char`, the CSV
output file becomes an explicit `Option (List Row)` value (`none` = the file
does not exist, `some rows` = header plus rows), the Playwright page state
observed by `cms_title_exists` becomes an explicit `CmsPage` record, and the
driver `run_sync` becomes a fold over the page range threading an explicit
`SyncState` through an `Except` monad (a raised `RuntimeError` becomes
`Except.error`).
-/

/-- Character constants used by the source: apostrophe (`'`, code 39) and the
non-breaking space (` `, code 160). -/
def apos : Char := Char.ofNat 39

/-- Character constant for the non-breaking space replaced by
`normalize_title`. -/
def nbsp : Char := Char.ofNat 160

/-- Code points matched by Python's `\s` regex class and by `str.strip()`
(ASCII whitespace, the C0 separators, NEL, NBSP and the Unicode space
characters).  Models the whitespace set used by `_whitespace_re` and
`str.strip` in the source. -/
def wsCodes : List Nat :=
  [9, 10, 11, 12, 13, 28, 29, 30, 31, 32, 133, 160, 5760,
   8192, 8193, 8194, 8195, 8196, 8197, 8198, 8199, 8200, 8201, 8202,
   8232, 8233, 8239, 8287, 12288]

/-- Whether a character is whitespace for Python's `\s` / `str.strip()`. -/
def isWsB (c : Char) : Bool := wsCodes.contains c.toNat

/-- The quote characters stripped from both ends by `normalize_title`
(the Python call `s.strip('\'"“”‘’„‟‹›«»')`). -/
def quoteChars : List Char :=
  [apos, '"', '“', '”', '‘', '’', '„', '‟', '‹', '›', '«', '»']

/-- Whether a character belongs to the stripped quote set. -/
def isQuoteB (c : Char) : Bool := quoteChars.contains c

/-- Drop the trailing run of characters satisfying `p` (the right half of
Python's `str.strip`). -/
def dropTrail (p : Char → Bool) : List Char → List Char
  | [] => []
  | c :: rest =>
    match dropTrail p rest with
    | [] => if p c then [] else [c]
    | r => c :: r

/-- Python's `str.strip(chars)`: drop the leading and trailing runs of
characters satisfying `p`. -/
def pyStripOn (p : Char → Bool) (l : List Char) : List Char :=
  dropTrail p (l.dropWhile p)

/-- Python's `_whitespace_re.sub(" ", s)`: replace every maximal run of
whitespace characters by a single ASCII space.  The flag records whether the
previous character was part of a whitespace run already replaced. -/
def collapseAux : Bool → List Char → List Char
  | _, [] => []
  | b, c :: rest =>
    if isWsB c then
      if b then collapseAux true rest else (' ') :: collapseAux true rest
    else c :: collapseAux false rest

/-- Match a literal pattern at the front of a list, returning the remainder on
success. -/
def matchEnt : List Char → List Char → Option (List Char)
  | [], l => some l
  | _ :: _, [] => none
  | p :: ps, c :: cs => if c = p then matchEnt ps cs else none

/-- Entity table for the model of Python's `html.unescape`, restricted to the
named and numeric character references relevant to this program (the spec's
examples use `&nbsp;`; doubled encodings use `&amp;`).  Longest form first, so
the semicolon-terminated spelling wins, mirroring the stdlib's
longest-match rule. -/
def entTable : List (List Char × Char) :=
  [ (['a', 'm', 'p', ';'], '&'), (['a', 'm', 'p'], '&'),
    (['l', 't', ';'], '<'), (['l', 't'], '<'),
    (['g', 't', ';'], '>'), (['g', 't'], '>'),
    (['q', 'u', 'o', 't', ';'], '"'), (['q', 'u', 'o', 't'], '"'),
    (['#', '3', '9', ';'], apos),
    (['a', 'p', 'o', 's', ';'], apos),
    (['n', 'b', 's', 'p', ';'], nbsp), (['n', 'b', 's', 'p'], nbsp),
    (['#', '1', '6', '0', ';'], nbsp) ]

/-- Try each entity pattern in turn after a `&`. -/
def tryEnts : List (List Char × Char) → List Char → Option (Char × List Char)
  | [], _ => none
  | (pat, r) :: t, l =>
    match matchEnt pat l with
    | some rest => some (r, rest)
    | none => tryEnts t l

/-- Fuel-indexed worker for the model of `html.unescape`.  Each step consumes
at least one input character, so fuel equal to the input length never runs
out. -/
def unescapeFuel : Nat → List Char → List Char
  | _, [] => []
  | 0, l => l
  | f + 1, c :: rest =>
    if c = '&' then
      match tryEnts entTable rest with
      | some pr => pr.1 :: unescapeFuel f pr.2
      | none => c :: unescapeFuel f rest
    else c :: unescapeFuel f rest

/-- Model of Python's `html.unescape`, restricted to the entity table above:
replace recognised character references, leave everything else (including a
bare `&`) unchanged. -/
def htmlUnescape (l : List Char) : List Char := unescapeFuel l.length l

/-- The body of `normalize_title` on character lists, step for step after the
`None` check: decode HTML entities, replace non-breaking spaces, strip outer
whitespace, strip wrapping quote characters, collapse internal whitespace and
strip again. -/
def normalizeChars (l : List Char) : List Char :=
  let s1 := htmlUnescape l
  let s2 := s1.map (fun c => if c = nbsp then (' ') else c)
  let s3 := pyStripOn isWsB s2
  let s4 := pyStripOn isQuoteB s3
  pyStripOn isWsB (collapseAux false s4)

/-- Embedding of `normalize_title` for a present (non-`None`) input string. -/
def normalize_title (raw : String) : String := String.mk (normalizeChars raw.data)

/-- Embedding of `normalize_title` including the `raw is None` guard: a
null/absent input yields the empty string. -/
def normalize_title_opt : Option String → String
  | none => ""
  | some s => normalize_title s

/-- ASCII lowering of one character; models Python's `str.lower` on the ASCII
titles this program compares. -/
def lowerChar (c : Char) : Char :=
  if 65 ≤ c.toNat ∧ c.toNat ≤ 90 then Char.ofNat (c.toNat + 32) else c

/-- Model of Python's `str.lower` (ASCII range). -/
def pyLower (s : String) : String := String.mk (s.data.map lowerChar)

/-- Model of Python's `str.strip()` with no argument on strings. -/
def pyStrip (s : String) : String := String.mk (pyStripOn isWsB s.data)

/-- A public article extracted from the public website (`PublicArticle` in
the source). -/
structure PublicArticle where
  title : String
  url : String
  dateText : String
deriving DecidableEq

/-- One anchor node found by the selector
`#post-area article h2.entry-title a` inside `section#main`, together with the
optional date node of its enclosing article (the inputs `fetch_public_articles`
reads from the parsed markup). -/
structure ArticleNode where
  titleRaw : String
  href : Option String
  dateRaw : Option String
deriving DecidableEq

/-- The parsed content of one public listing page: `main = none` models a page
whose `section#main` content region is absent. -/
structure PublicPage where
  main : Option (List ArticleNode)
deriving DecidableEq

/-- Embedding of the extraction part of `fetch_public_articles`: with no
content region return the empty list, otherwise normalize each anchor's title,
strip its href, read the optional date, and drop entities missing a title or a
link. -/
def fetch_public_articles (pg : PublicPage) : List PublicArticle :=
  match pg.main with
  | none => []
  | some nodes =>
    nodes.filterMap (fun a =>
      let title := normalize_title a.titleRaw
      let href := pyStrip (a.href.getD (""))
      let dateText :=
        match a.dateRaw with
        | none => ""
        | some d => normalize_title d
      if title ≠ "" ∧ href ≠ "" then some (PublicArticle.mk title href dateText)
      else none)

/-- One CSV record of the output file, with the columns written by
`append_missing`. -/
structure Row where
  title : String
  publicUrl : String
  publicListUrl : String
  publicDate : String
  checkedAt : String
deriving DecidableEq

/-- Embedding of `append_missing`.  The output file is `none` when it does not
exist; appending to a fresh file writes the header row and then the record
(`some [row]`), appending to an existing file adds the record at the end.  The
two URL fields get one trailing space when non-empty; the other fields are
written unchanged. -/
def append_missing (file : Option (List Row)) (r : Row) : Option (List Row) :=
  let r2 := Row.mk r.title
    (if r.publicUrl ≠ "" then r.publicUrl ++ (" ") else r.publicUrl)
    (if r.publicListUrl ≠ "" then r.publicListUrl ++ (" ") else r.publicListUrl)
    r.publicDate r.checkedAt
  match file with
  | none => some [r2]
  | some rows => some (rows ++ [r2])

/-- Embedding of `load_existing_titles`: a nonexistent file yields the empty
collection; otherwise every stored title is stripped, skipped when empty, and
otherwise re-normalized and lowercased before insertion.  The Python `set` is
modelled as a list whose membership is what matters. -/
def load_existing_titles (file : Option (List Row)) : List String :=
  match file with
  | none => []
  | some rows =>
    rows.foldl (fun acc r =>
      let raw := pyStrip r.title
      if raw ≠ "" then acc ++ [pyLower (normalize_title raw)] else acc) []

/-- The error raised by `cms_title_exists` when neither a results table nor a
results container is visible (`RuntimeError("CMS results not visible; session
may be invalid")`). -/
inductive CmsErr where
  | sessionInvalid
deriving DecidableEq

/-- The observable state of the CMS results page after navigation: the locator
counts for the `No content available` text, the `table.views-table` element
and the `.view-content` container, and the inner texts of the title links
`table.views-table tbody td.views-field-title a`. -/
structure CmsPage where
  noContentCount : Nat
  tableCount : Nat
  viewContentCount : Nat
  titleLinks : List String
deriving DecidableEq

/-- The scanning loop of `cms_title_exists`: walk the title links in order and
return true at the first link whose normalized, lowercased text equals the
wanted key. -/
def scanLinks (wanted : String) : List String → Bool
  | [] => false
  | l :: rest => if pyLower (normalize_title l) = wanted then true else scanLinks wanted rest

/-- Embedding of `cms_title_exists`.  The backend is a function from the clean
query title to the page state rendered for that query (the result of
`page.goto` on the URL built from the title).  The checks run in source
order: explicit no-content indicator, missing table and container, empty link
list, then the scan. -/
def cms_title_exists (backend : String → CmsPage) (title : String) : Except CmsErr Bool :=
  let clean := normalize_title title
  let pg := backend clean
  if pg.noContentCount > 0 then Except.ok false
  else if pg.tableCount = 0 ∧ pg.viewContentCount = 0 then Except.error CmsErr.sessionInvalid
  else if pg.titleLinks.length = 0 then Except.ok false
  else Except.ok (scanLinks (pyLower clean) pg.titleLinks)

/-- Enforce a trailing slash, as the source does inline with
`u if u.endswith("/") else u + "/"`. -/
def ensureSlash (u : String) : String :=
  if u.data.getLast? = some ('/') then u else u ++ ("/")

/-- Model of `urllib.parse.urljoin` restricted to the only shape this program
uses: an absolute base URL whose path ends in a slash (ensured by the caller)
joined with a plain relative path reference such as `page/N/`, which resolves
to their concatenation. -/
def urljoin (base rel : String) : String := base ++ rel

/-- Embedding of `public_page_url`: page numbers up to 1 map to the base
listing URL with a trailing slash enforced, larger page numbers additionally
join the `page/N/` path. -/
def public_page_url (baseListUrl : String) (pageNum : Int) : String :=
  if pageNum ≤ 1 then ensureSlash baseListUrl
  else urljoin (ensureSlash baseListUrl) (("page/") ++ toString pageNum ++ ("/"))

/-- Python's `l[:k]` slice for an integer bound: a non-negative bound takes a
prefix, a negative bound counts from the end. -/
def pySlice {α : Type} (l : List α) (k : Int) : List α :=
  if 0 ≤ k then l.take k.toNat else l.take ((l.length : Int) + k).toNat

/-- The per-page truncation applied by `run_sync` when `limit_per_page` is
set (`public_items[:limit_per_page]`). -/
def considered (limit : Option Int) (items : List PublicArticle) : List PublicArticle :=
  match limit with
  | some k => pySlice items k
  | none => items

/-- The in-process state threaded through `run_sync`: the rows of the output
file, the in-memory `already_missing` set (as a list whose membership is what
matters), and the two counters. -/
structure SyncState where
  fileRows : Option (List Row)
  already : List String
  totalScanned : Nat
  totalMissing : Nat
deriving DecidableEq

/-- The body of `run_sync`'s inner loop for one public item: re-normalize the
title, skip it when the lowercased key is already in the ledger, otherwise
verify against the CMS and, when absent, append the record to the output file
and only then add the key to the in-memory set. -/
def processItem (backend : String → CmsPage) (listUrl checkedAt : String)
    (st : SyncState) (item : PublicArticle) : Except CmsErr SyncState :=
  let clean := normalize_title item.title
  if st.already.contains (pyLower clean) then Except.ok st
  else
    match cms_title_exists backend clean with
    | Except.error e => Except.error e
    | Except.ok true => Except.ok st
    | Except.ok false =>
      Except.ok (SyncState.mk
        (append_missing st.fileRows (Row.mk clean item.url listUrl item.dateText checkedAt))
        (st.already ++ [pyLower clean])
        st.totalScanned
        (st.totalMissing + 1))

/-- The body of `run_sync`'s outer loop for one page number: build the listing
URL, fetch and truncate the public items, count them as scanned, then process
them strictly in order.  The public site is a function from page number to
parsed page, and the wall-clock timestamp is a fixed parameter. -/
def processPage (backend : String → CmsPage) (site : Int → PublicPage)
    (listBase : String) (limit : Option Int) (checkedAt : String)
    (st : SyncState) (pageNum : Int) : Except CmsErr SyncState :=
  let listUrl := public_page_url listBase pageNum
  let items := considered limit (fetch_public_articles (site pageNum))
  let st1 := SyncState.mk st.fileRows st.already (st.totalScanned + items.length) st.totalMissing
  items.foldlM (processItem backend listUrl checkedAt) st1

/-- Helper for `rangeList`: the `n` consecutive integers starting at `s`. -/
def rangeAux (s : Int) : Nat → List Int
  | 0 => []
  | n + 1 => s :: rangeAux (s + 1) n

/-- Python's `range(s, e + 1)` over integers. -/
def rangeList (s e : Int) : List Int := rangeAux s (e + 1 - s).toNat

/-- The page loop of `run_sync` from a given state. -/
def runPages (backend : String → CmsPage) (site : Int → PublicPage)
    (listBase : String) (limit : Option Int) (checkedAt : String)
    (s e : Int) (st : SyncState) : Except CmsErr SyncState :=
  (rangeList s e).foldlM (processPage backend site listBase limit checkedAt) st

/-- Embedding of `run_sync`: load the ledger from the output file named for
this run, then walk the page range `[startPage, endPage]` sequentially. -/
def runSync (backend : String → CmsPage) (site : Int → PublicPage)
    (listBase : String) (startPage endPage : Int)
    (outFile : Option (List Row)) (limit : Option Int) (checkedAt : String) :
    Except CmsErr SyncState :=
  runPages backend site listBase limit checkedAt startPage endPage
    (SyncState.mk outFile (load_existing_titles outFile) 0 0)

/-- Fold a batch of records through `append_missing`; used to state which rows
a run appended to the output file. -/
def appendList (file : Option (List Row)) (new : List Row) : Option (List Row) :=
  new.foldl append_missing file

/-- Index of the last occurrence of a character in a list. -/
def lastIdx (c : Char) (l : List Char) : Option Nat :=
  (l.reverse.findIdx? (fun x => x = c)).map (fun i => l.length - 1 - i)

/-- Model of `os.path.splitext`: split off the extension at the last dot of
the final path component, unless that component consists solely of leading
dots up to it. -/
def splitext (p : String) : String × String :=
  let cs := p.data
  match lastIdx ('.') cs with
  | none => (p, "")
  | some d =>
    let start :=
      match lastIdx ('/') cs with
      | none => 0
      | some s => s + 1
    if d < start then (p, "")
    else if ((cs.drop start).take (d - start)).all (fun c => c = ('.')) then (p, "")
    else (String.mk (cs.take d), String.mk (cs.drop d))

/-- Embedding of `timestamped_csv_name` with the formatted timestamp as an
explicit parameter: insert `_<ts>` before the extension, defaulting the
extension to `.csv`. -/
def timestamped_csv_name (path ts : String) : String :=
  let be := splitext path
  let ext := if be.2 = "" then (".csv") else be.2
  be.1 ++ ("_") ++ ts ++ ext

/-- No whitespace run survives in a list: no two adjacent characters are both
whitespace. -/
def noWsRunB : List Char → Bool
  | [] => true
  | [_] => true
  | c :: d :: rest => (!(isWsB c && isWsB d)) && noWsRunB (d :: rest)

/-- The ledger–sink consistency relation for one run: the current output file
is the initial file with some batch of records appended through
`append_missing`, and the in-memory set holds exactly the keys loaded from the
initial file plus the lowercased titles of that batch. -/
def LedgerInv (outFile : Option (List Row)) (st : SyncState) : Prop :=
  ∃ new : List Row, st.fileRows = appendList outFile new ∧
    ∀ t : String, t ∈ st.already ↔
      (t ∈ load_existing_titles outFile ∨ t ∈ new.map (fun r => pyLower r.title))

/-- Concrete backend for the two-entity scenario: the query `Alpha` renders a
results table whose single title link matches, every other query renders the
explicit no-content indicator. -/
def backendW : String → CmsPage := fun q =>
  if q = "Alpha" then CmsPage.mk 0 1 1 [("Alpha")] else CmsPage.mk 1 0 0 []

/-- Concrete public site for the two-entity scenario: page 1 lists the
articles `Alpha` and `Beta`. -/
def siteW : Int → PublicPage := fun pn =>
  if pn = 1 then
    PublicPage.mk (some [ArticleNode.mk ("Alpha") (some ("http://a/")) (some ("d1")),
                         ArticleNode.mk ("Beta") (some ("http://b/")) (some ("d2"))])
  else PublicPage.mk none

/-- Concrete backend for the re-run scenario: every query renders the explicit
no-content indicator, so every public title is reported missing. -/
def backendB : String → CmsPage := fun _ => CmsPage.mk 1 0 0 []

/-- Concrete public site for the re-run scenario: page 1 lists one article. -/
def siteB : Int → PublicPage := fun pn =>
  if pn = 1 then
    PublicPage.mk (some [ArticleNode.mk ("Beta") (some ("http://b/")) (some ("d2"))])
  else PublicPage.mk none

/-- Concrete public site whose first page has no content region and whose
second page lists one article. -/
def siteE : Int → PublicPage := fun pn =>
  if pn = 1 then PublicPage.mk none
  else PublicPage.mk (some [ArticleNode.mk ("Gamma") (some ("http://g/")) none])

/-- Concrete backend whose results table contains one title link. -/
def backendF : String → CmsPage := fun _ => CmsPage.mk 0 1 1 [("Hello World")]

theorem head?_dropWhile_not {p : Char → Bool} : ∀ {l : List Char} {c : Char},
    (l.dropWhile p).head? = some c → p c = false := by
  intro l
  induction l with
  | nil => intro c h; simp [List.dropWhile] at h
  | cons a rest ih =>
    intro c h
    rw [List.dropWhile_cons] at h
    by_cases hp : p a
    · rw [if_pos hp] at h; exact ih h
    · rw [if_neg hp] at h
      simp at h
      rw [← h]
      exact Bool.eq_false_iff.mpr hp

theorem dropWhile_eq_self_of_head {p : Char → Bool} {l : List Char}
    (h : ∀ c, l.head? = some c → p c = false) : l.dropWhile p = l := by
  cases l with
  | nil => rfl
  | cons a rest =>
    rw [List.dropWhile_cons, if_neg]
    simp [h a rfl]

theorem dropTrail_cons (p : Char → Bool) (a : Char) (rest : List Char) :
    dropTrail p (a :: rest) =
      match dropTrail p rest with
      | [] => if p a = true then [] else [a]
      | r => a :: r := rfl

theorem mem_dropTrail {p : Char → Bool} : ∀ {l : List Char} {c : Char},
    c ∈ dropTrail p l → c ∈ l := by
  intro l
  induction l with
  | nil => intro c h; simp [dropTrail] at h
  | cons a rest ih =>
    intro c h
    simp only [dropTrail] at h
    cases hdt : dropTrail p rest with
    | nil =>
      rw [hdt] at h
      by_cases hp : p a
      · simp [if_pos hp] at h
      · simp [if_neg hp] at h; simp [h]
    | cons b r =>
      rw [hdt] at h
      rcases List.mem_cons.mp h with h1 | h1
      · simp [h1]
      · exact List.mem_cons_of_mem a (ih (hdt ▸ h1))

theorem getLast?_dropTrail_not {p : Char → Bool} : ∀ {l : List Char} {c : Char},
    (dropTrail p l).getLast? = some c → p c = false := by
  intro l
  induction l with
  | nil => intro c h; simp [dropTrail] at h
  | cons a rest ih =>
    intro c h
    simp only [dropTrail] at h
    cases hdt : dropTrail p rest with
    | nil =>
      rw [hdt] at h
      by_cases hp : p a
      · simp [if_pos hp] at h
      · simp [if_neg hp] at h
        rw [← h]
        exact Bool.eq_false_iff.mpr hp
    | cons b r =>
      rw [hdt] at h
      rw [List.getLast?_cons_cons] at h
      exact ih (hdt ▸ h)

theorem head?_dropTrail {p : Char → Bool} : ∀ {l : List Char} {c : Char},
    (dropTrail p l).head? = some c → l.head? = some c := by
  intro l
  induction l with
  | nil => intro c h; simp [dropTrail] at h
  | cons a rest _ =>
    intro c h
    simp only [dropTrail] at h
    cases hdt : dropTrail p rest with
    | nil =>
      rw [hdt] at h
      by_cases hp : p a
      · simp [if_pos hp] at h
      · simp [if_neg hp] at h; simp [h]
    | cons b r =>
      rw [hdt] at h
      simp at h
      simp [h]

theorem dropTrail_eq_self_of_getLast {p : Char → Bool} : ∀ {l : List Char},
    (∀ c, l.getLast? = some c → p c = false) → dropTrail p l = l := by
  intro l
  induction l with
  | nil => intro _; rfl
  | cons a rest ih =>
    intro h
    cases rest with
    | nil =>
      have hpa : p a = false := h a (by simp)
      simp [dropTrail, hpa]
    | cons b r =>
      have hr : dropTrail p (b :: r) = b :: r := by
        apply ih
        intro c hc
        apply h
        rw [List.getLast?_cons_cons]
        exact hc
      rw [dropTrail_cons, hr]

theorem mem_dropWhile {p : Char → Bool} : ∀ {l : List Char} {c : Char},
    c ∈ l.dropWhile p → c ∈ l := by
  intro l
  induction l with
  | nil => intro c h; simp [List.dropWhile] at h
  | cons a rest ih =>
    intro c h
    rw [List.dropWhile_cons] at h
    by_cases hp : p a
    · rw [if_pos hp] at h; exact List.mem_cons_of_mem a (ih h)
    · rw [if_neg hp] at h; exact h

theorem mem_pyStripOn {p : Char → Bool} {l : List Char} {c : Char}
    (h : c ∈ pyStripOn p l) : c ∈ l :=
  mem_dropWhile (mem_dropTrail h)

theorem pyStripOn_idem (p : Char → Bool) (l : List Char) :
    pyStripOn p (pyStripOn p l) = pyStripOn p l := by
  unfold pyStripOn
  have h1 : (dropTrail p (l.dropWhile p)).dropWhile p = dropTrail p (l.dropWhile p) := by
    apply dropWhile_eq_self_of_head
    intro c hc
    exact head?_dropWhile_not (head?_dropTrail hc)
  rw [h1]
  apply dropTrail_eq_self_of_getLast
  intro c hc
  exact getLast?_dropTrail_not hc

theorem pyStripOn_eq_self {p : Char → Bool} {l : List Char}
    (h1 : ∀ c, l.head? = some c → p c = false)
    (h2 : ∀ c, l.getLast? = some c → p c = false) : pyStripOn p l = l := by
  unfold pyStripOn
  rw [dropWhile_eq_self_of_head h1]
  exact dropTrail_eq_self_of_getLast h2

theorem collapseAux_cons_ws_true {a : Char} {rest : List Char} (ha : isWsB a = true) :
    collapseAux true (a :: rest) = collapseAux true rest := by
  simp [collapseAux, ha]

theorem collapseAux_cons_ws_false {a : Char} {rest : List Char} (ha : isWsB a = true) :
    collapseAux false (a :: rest) = (' ') :: collapseAux true rest := by
  simp [collapseAux, ha]

theorem collapseAux_cons_nws {b : Bool} {a : Char} {rest : List Char} (ha : isWsB a = false) :
    collapseAux b (a :: rest) = a :: collapseAux false rest := by
  simp [collapseAux, ha]

theorem collapseAux_ws_space : ∀ (b : Bool) (l : List Char) (c : Char),
    c ∈ collapseAux b l → isWsB c = true → c = (' ') := by
  intro b l
  induction l generalizing b with
  | nil => intro c h; simp [collapseAux] at h
  | cons a rest ih =>
    intro c h hws
    cases ha : isWsB a with
    | true =>
      cases b with
      | true =>
        rw [collapseAux_cons_ws_true ha] at h
        exact ih true c h hws
      | false =>
        rw [collapseAux_cons_ws_false ha] at h
        rcases List.mem_cons.mp h with h1 | h1
        · exact h1
        · exact ih true c h1 hws
    | false =>
      rw [collapseAux_cons_nws ha] at h
      rcases List.mem_cons.mp h with h1 | h1
      · rw [h1] at hws; rw [hws] at ha; cases ha
      · exact ih false c h1 hws

theorem head?_collapseAux_true : ∀ {l : List Char} {c : Char},
    (collapseAux true l).head? = some c → isWsB c = false := by
  intro l
  induction l with
  | nil => intro c h; simp [collapseAux] at h
  | cons a rest ih =>
    intro c h
    cases ha : isWsB a with
    | true =>
      rw [collapseAux_cons_ws_true ha] at h
      exact ih h
    | false =>
      rw [collapseAux_cons_nws ha] at h
      simp at h
      rw [← h]
      exact ha

theorem noWsRunB_cons_iff (c : Char) (l : List Char) :
    noWsRunB (c :: l) = true ↔
      ((∀ d, l.head? = some d → (isWsB c && isWsB d) = false) ∧ noWsRunB l = true) := by
  cases l with
  | nil => simp [noWsRunB]
  | cons d rest =>
    simp only [noWsRunB, Bool.and_eq_true, Bool.not_eq_true']
    constructor
    · intro h
      refine ⟨?_, h.2⟩
      intro x hx
      simp at hx
      rw [← hx]
      exact h.1
    · intro h
      exact ⟨h.1 d rfl, h.2⟩

theorem noWsRunB_tail {c : Char} {l : List Char} (h : noWsRunB (c :: l) = true) :
    noWsRunB l = true :=
  ((noWsRunB_cons_iff c l).mp h).2

theorem noWsRunB_collapseAux : ∀ (b : Bool) (l : List Char),
    noWsRunB (collapseAux b l) = true := by
  intro b l
  induction l generalizing b with
  | nil => simp [collapseAux, noWsRunB]
  | cons a rest ih =>
    cases ha : isWsB a with
    | true =>
      cases b with
      | true =>
        rw [collapseAux_cons_ws_true ha]
        exact ih true
      | false =>
        rw [collapseAux_cons_ws_false ha]
        rw [noWsRunB_cons_iff]
        refine ⟨?_, ih true⟩
        intro d hd
        rw [head?_collapseAux_true hd]
        simp
    | false =>
      rw [collapseAux_cons_nws ha]
      rw [noWsRunB_cons_iff]
      refine ⟨?_, ih false⟩
      intro d _
      rw [ha]
      simp

theorem collapseAux_eq_self_aux : ∀ (l : List Char),
    (∀ c ∈ l, isWsB c = true → c = (' ')) → noWsRunB l = true →
    ∀ (b : Bool), (b = true → ∀ c, l.head? = some c → isWsB c = false) →
    collapseAux b l = l := by
  intro l
  induction l with
  | nil => intro _ _ b _; simp [collapseAux]
  | cons a rest ih =>
    intro hw hr b hb
    cases ha : isWsB a with
    | true =>
      cases b with
      | true => rw [hb rfl a rfl] at ha; cases ha
      | false =>
        rw [collapseAux_cons_ws_false ha]
        have ha2 : a = (' ') := hw a (List.mem_cons_self a rest) ha
        have hrest : collapseAux true rest = rest := by
          apply ih (fun c hc => hw c (List.mem_cons_of_mem a hc)) (noWsRunB_tail hr) true
          intro _ c hc
          have hp := ((noWsRunB_cons_iff a rest).mp hr).1 c hc
          rw [ha] at hp
          simpa using hp
        rw [hrest, ha2]
    | false =>
      rw [collapseAux_cons_nws ha]
      rw [ih (fun c hc => hw c (List.mem_cons_of_mem a hc)) (noWsRunB_tail hr) false (by simp)]

theorem collapseAux_eq_self {l : List Char}
    (hw : ∀ c ∈ l, isWsB c = true → c = (' ')) (hr : noWsRunB l = true) :
    collapseAux false l = l :=
  collapseAux_eq_self_aux l hw hr false (by simp)

theorem noWsRunB_dropWhile {p : Char → Bool} : ∀ {l : List Char},
    noWsRunB l = true → noWsRunB (l.dropWhile p) = true := by
  intro l
  induction l with
  | nil => intro h; exact h
  | cons a rest ih =>
    intro h
    rw [List.dropWhile_cons]
    by_cases hp : p a
    · rw [if_pos hp]; exact ih (noWsRunB_tail h)
    · rw [if_neg hp]; exact h

theorem noWsRunB_dropTrail {p : Char → Bool} : ∀ {l : List Char},
    noWsRunB l = true → noWsRunB (dropTrail p l) = true := by
  intro l
  induction l with
  | nil => intro h; exact h
  | cons a rest ih =>
    intro h
    rw [dropTrail_cons]
    cases hdt : dropTrail p rest with
    | nil =>
      show noWsRunB (if p a = true then [] else [a]) = true
      by_cases hp : p a
      · simp [if_pos hp, noWsRunB]
      · simp [if_neg hp, noWsRunB]
    | cons b r =>
      show noWsRunB (a :: b :: r) = true
      rw [noWsRunB_cons_iff]
      refine ⟨?_, ?_⟩
      · intro d hd
        have hd0 : (dropTrail p rest).head? = some d := by rw [hdt]; exact hd
        exact ((noWsRunB_cons_iff a rest).mp h).1 d (head?_dropTrail hd0)
      · rw [← hdt]
        exact ih (noWsRunB_tail h)

theorem noWsRunB_pyStripOn {p : Char → Bool} {l : List Char}
    (h : noWsRunB l = true) : noWsRunB (pyStripOn p l) = true :=
  noWsRunB_dropTrail (noWsRunB_dropWhile h)

theorem unescapeFuel_eq_self {l : List Char} (h : ('&') ∉ l) :
    ∀ f : Nat, unescapeFuel f l = l := by
  induction l with
  | nil => intro f; cases f <;> rfl
  | cons a rest ih =>
    intro f
    cases f with
    | zero => rfl
    | succ f =>
      have ha : a ≠ ('&') := fun hc => h (hc ▸ List.mem_cons_self a rest)
      simp only [unescapeFuel, if_neg ha]
      rw [ih (fun hc => h (List.mem_cons_of_mem a hc)) f]

theorem map_nbsp_eq_self {l : List Char} (h : nbsp ∉ l) :
    l.map (fun c => if c = nbsp then (' ') else c) = l := by
  induction l with
  | nil => rfl
  | cons a rest ih =>
    simp only [List.map_cons]
    have ha : ¬(a = nbsp) := by
      intro hc
      rw [hc] at h
      exact h (List.mem_cons_self nbsp rest)
    rw [if_neg ha]
    rw [ih (fun hc => h (List.mem_cons_of_mem a hc))]

theorem normalizeChars_ws_space {l : List Char} :
    ∀ c ∈ normalizeChars l, isWsB c = true → c = (' ') := by
  intro c hc hws
  unfold normalizeChars at hc
  exact collapseAux_ws_space false _ c (mem_pyStripOn hc) hws

theorem noWsRunB_normalizeChars (l : List Char) :
    noWsRunB (normalizeChars l) = true := by
  unfold normalizeChars
  exact noWsRunB_pyStripOn (noWsRunB_collapseAux false _)

theorem normalizeChars_idem_of {y : List Char}
    (hy : ∃ l, y = normalizeChars l)
    (h1 : ('&') ∉ y)
    (h2 : ∀ c, y.head? = some c → isQuoteB c = false)
    (h3 : ∀ c, y.getLast? = some c → isQuoteB c = false) :
    normalizeChars y = y := by
  obtain ⟨l, hl⟩ := hy
  have hws : ∀ c ∈ y, isWsB c = true → c = (' ') := hl ▸ normalizeChars_ws_space
  have hnr : noWsRunB y = true := hl ▸ noWsRunB_normalizeChars l
  have e1 : htmlUnescape y = y := unescapeFuel_eq_self h1 y.length
  have hnb : nbsp ∉ y := by
    intro hc
    have := hws nbsp hc (by decide)
    exact absurd this (by decide)
  have e2 : y.map (fun c => if c = nbsp then (' ') else c) = y := map_nbsp_eq_self hnb
  have e3 : pyStripOn isWsB y = y := by
    rw [hl]
    unfold normalizeChars
    exact pyStripOn_idem isWsB _
  have e4 : pyStripOn isQuoteB y = y := pyStripOn_eq_self h2 h3
  have e5 : collapseAux false y = y := collapseAux_eq_self hws hnr
  show pyStripOn isWsB (collapseAux false (pyStripOn isQuoteB (pyStripOn isWsB
    ((htmlUnescape y).map (fun c => if c = nbsp then (' ') else c))))) = y
  rw [e1, e2, e3, e4, e5, e3]

theorem append_missing_eq (file : Option (List Row)) (r : Row) :
    append_missing file r = some ((file.getD []) ++
      [Row.mk r.title
        (if r.publicUrl ≠ "" then r.publicUrl ++ (" ") else r.publicUrl)
        (if r.publicListUrl ≠ "" then r.publicListUrl ++ (" ") else r.publicListUrl)
        r.publicDate r.checkedAt]) := by
  cases file with
  | none => rfl
  | some rows => rfl

theorem load_existing_titles_append (rows : List Row) (r : Row) :
    load_existing_titles (some (rows ++ [r])) =
      load_existing_titles (some rows) ++
        (if pyStrip r.title ≠ "" then [pyLower (normalize_title (pyStrip r.title))] else []) := by
  simp only [load_existing_titles]
  rw [List.foldl_append]
  simp only [List.foldl_cons, List.foldl_nil]
  by_cases hc : pyStrip r.title ≠ ""
  · rw [if_pos hc, if_pos hc]
  · rw [if_neg hc, if_neg hc, List.append_nil]

theorem foldlM_except_inv {σ α ε : Type} (P : σ → Prop) (f : σ → α → Except ε σ)
    (hf : ∀ s a s2, P s → f s a = Except.ok s2 → P s2) :
    ∀ (l : List α) (s s2 : σ), P s → l.foldlM f s = Except.ok s2 → P s2 := by
  intro l
  induction l with
  | nil =>
    intro s s2 hP h
    rw [List.foldlM_nil] at h
    have h2 : (Except.ok s : Except ε σ) = Except.ok s2 := h
    injection h2 with h3
    rw [← h3]
    exact hP
  | cons a t ih =>
    intro s s2 hP h
    rw [List.foldlM_cons] at h
    cases hfa : f s a with
    | error e =>
      rw [hfa] at h
      have h2 : (Except.error e : Except ε σ) = Except.ok s2 := h
      exact Except.noConfusion h2
    | ok s1 =>
      rw [hfa] at h
      exact ih s1 s2 (hf s a s1 hP hfa) h

theorem appendList_concat (f : Option (List Row)) (new : List Row) (r : Row) :
    appendList f (new ++ [r]) = append_missing (appendList f new) r := by
  unfold appendList
  rw [List.foldl_append]
  rfl

theorem processItem_inv {backend : String → CmsPage} {lu ca : String}
    {outFile : Option (List Row)} {st : SyncState} {it : PublicArticle} {st2 : SyncState}
    (hP : LedgerInv outFile st) (h : processItem backend lu ca st it = Except.ok st2) :
    LedgerInv outFile st2 := by
  simp only [processItem] at h
  by_cases hc : st.already.contains (pyLower (normalize_title it.title)) = true
  · rw [if_pos hc] at h
    injection h with h2
    rw [← h2]
    exact hP
  · rw [if_neg hc] at h
    cases hcms : cms_title_exists backend (normalize_title it.title) with
    | error e =>
      rw [hcms] at h
      exact Except.noConfusion h
    | ok b =>
      rw [hcms] at h
      cases b with
      | true =>
        injection h with h2
        rw [← h2]
        exact hP
      | false =>
        injection h with h2
        obtain ⟨new, hf, hm⟩ := hP
        refine ⟨new ++ [Row.mk (normalize_title it.title) it.url lu it.dateText ca], ?_, ?_⟩
        · rw [← h2]
          show append_missing st.fileRows _ = _
          rw [appendList_concat, hf]
        · intro t
          rw [← h2]
          show t ∈ st.already ++ [pyLower (normalize_title it.title)] ↔ _
          rw [List.map_append]
          constructor
          · intro ht
            rcases List.mem_append.mp ht with h1 | h1
            · rcases (hm t).mp h1 with h3 | h3
              · exact Or.inl h3
              · exact Or.inr (List.mem_append_left _ h3)
            · refine Or.inr (List.mem_append_right _ ?_)
              simpa using h1
          · intro ht
            rcases ht with h1 | h1
            · exact List.mem_append_left _ ((hm t).mpr (Or.inl h1))
            · rcases List.mem_append.mp h1 with h3 | h3
              · exact List.mem_append_left _ ((hm t).mpr (Or.inr h3))
              · apply List.mem_append_right
                simpa using h3

theorem processPage_inv {backend : String → CmsPage} {site : Int → PublicPage}
    {listBase : String} {lim : Option Int} {ca : String}
    {outFile : Option (List Row)} {st : SyncState} {pn : Int} {st2 : SyncState}
    (hP : LedgerInv outFile st) (h : processPage backend site listBase lim ca st pn = Except.ok st2) :
    LedgerInv outFile st2 := by
  simp only [processPage] at h
  have hP1 : LedgerInv outFile (SyncState.mk st.fileRows st.already
      (st.totalScanned + (considered lim (fetch_public_articles (site pn))).length)
      st.totalMissing) := hP
  exact foldlM_except_inv (LedgerInv outFile) _
    (fun s a s3 hs ha => processItem_inv hs ha) _ _ _ hP1 h

theorem rangeList_cons {s e : Int} (h : s ≤ e) :
    rangeList s e = s :: rangeList (s + 1) e := by
  unfold rangeList
  have h1 : (e + 1 - s).toNat = (e + 1 - (s + 1)).toNat + 1 := by omega
  rw [h1]
  rfl

theorem scanLinks_iff (w : String) : ∀ ls : List String,
    scanLinks w ls = true ↔ ∃ l ∈ ls, pyLower (normalize_title l) = w := by
  intro ls
  induction ls with
  | nil => simp [scanLinks]
  | cons a rest ih =>
    simp only [scanLinks]
    by_cases h : pyLower (normalize_title a) = w
    · rw [if_pos h]
      constructor
      · intro _
        exact ⟨a, List.mem_cons_self a rest, h⟩
      · intro _
        rfl
    · rw [if_neg h, ih]
      constructor
      · rintro ⟨l, hl, hw⟩
        exact ⟨l, List.mem_cons_of_mem a hl, hw⟩
      · rintro ⟨l, hl, hw⟩
        rcases List.mem_cons.mp hl with h1 | h1
        · rw [h1] at hw
          exact absurd hw h
        · exact ⟨l, h1, hw⟩

theorem quote_head_of_all {l : List Char}
    (h : l.head?.all (fun c => !(isQuoteB c)) = true) :
    ∀ c, l.head? = some c → isQuoteB c = false := by
  intro c hc
  rw [hc] at h
  simpa [Option.all] using h

theorem quote_last_of_all {l : List Char}
    (h : l.getLast?.all (fun c => !(isQuoteB c)) = true) :
    ∀ c, l.getLast? = some c → isQuoteB c = false := by
  intro c hc
  rw [hc] at h
  simpa [Option.all] using h

/-- Claim C2 (counterexample): `normalize_title` is not idempotent on all
strings.  On the input `a" '` (a quote character nested inside whitespace at
the end) one pass yields `a"`, whose trailing quote a second pass strips to
`a`. -/
theorem normalize_title_not_idempotent :
    normalize_title (normalize_title (String.mk ['a', '"', ' ', apos])) ≠
      normalize_title (String.mk ['a', '"', ' ', apos]) := by decide

/-- Claim C2 (amended): `normalize_title` is idempotent on every input whose
normalized form contains no `&` (so no further HTML entity decoding can fire)
and neither starts nor ends with a stripped quote character. -/
theorem normalize_title_idempotent_amended (x : String)
    (h1 : ('&') ∉ (normalize_title x).data)
    (h2 : ∀ c, (normalize_title x).data.head? = some c → isQuoteB c = false)
    (h3 : ∀ c, (normalize_title x).data.getLast? = some c → isQuoteB c = false) :
    normalize_title (normalize_title x) = normalize_title x := by
  show String.mk (normalizeChars (normalizeChars x.data)) = String.mk (normalizeChars x.data)
  rw [normalizeChars_idem_of ⟨x.data, rfl⟩ h1 h2 h3]

/-- Witness for the amended C2 theorem at a concrete input. -/
theorem normalize_title_idempotent_amended_witness :
    normalize_title (normalize_title ("Foreign&nbsp;Visit")) =
      normalize_title ("Foreign&nbsp;Visit") :=
  normalize_title_idempotent_amended ("Foreign&nbsp;Visit") (by decide)
    (quote_head_of_all (by decide)) (quote_last_of_all (by decide))

/-- Claim C3 (counterexample): the ledger round-trip fails as stated.  For the
entity title `a" '` the Driver records `normalize(title) = a"`, but loading
re-normalizes the stored text to `a`, so the loaded set does not contain
`normalize(title).lower() = a"`. -/
theorem ledger_roundtrip_cex :
    ¬ pyLower (normalize_title (String.mk ['a', '"', ' ', apos])) ∈
      load_existing_titles (append_missing none
        (Row.mk (normalize_title (String.mk ['a', '"', ' ', apos])) ("u") ("lu") ("d") ("ca"))) := by
  decide

/-- Claim C3 (amended): after `append_missing` with the normalized title (as
the Driver does), provided that title is non-empty, `load_existing_titles`
yields a set containing the re-normalized lowercased key
`normalize(normalize(title)).lower()` — the loader recomputes the key from the
stored raw text rather than trusting it. -/
theorem ledger_roundtrip_amended (file : Option (List Row)) (t u lu d ca : String)
    (h : normalize_title t ≠ "") :
    pyLower (normalize_title (normalize_title t)) ∈
      load_existing_titles (append_missing file (Row.mk (normalize_title t) u lu d ca)) := by
  have hstrip : pyStrip (normalize_title t) = normalize_title t :=
    congrArg String.mk (pyStripOn_idem isWsB (collapseAux false (pyStripOn isQuoteB
      (pyStripOn isWsB ((htmlUnescape t.data).map (fun c => if c = nbsp then (' ') else c))))))
  rw [append_missing_eq, load_existing_titles_append]
  simp only [hstrip]
  rw [if_pos h]
  exact List.mem_append_right _ (List.mem_singleton.mpr rfl)

/-- Witness for the amended C3 theorem at a concrete input. -/
theorem ledger_roundtrip_amended_witness :
    pyLower (normalize_title (normalize_title ("Beta"))) ∈
      load_existing_titles (append_missing none
        (Row.mk (normalize_title ("Beta")) ("u") ("lu") ("d") ("ca"))) :=
  ledger_roundtrip_amended none ("Beta") ("u") ("lu") ("d") ("ca") (by decide)

/-- Claim C6: `normalize_title` maps the three human-equivalent example forms
(`&nbsp;`-encoded spaces, ordinary spaces, and curly-quote wrapping) to the
identical plain string `Foreign Minister's Visit`, and a null/absent input
yields the empty string. -/
theorem normalize_equates_known_forms :
    normalize_title (String.mk ['F','o','r','e','i','g','n','&','n','b','s','p',';','M','i','n','i','s','t','e','r',apos,'s','&','n','b','s','p',';','V','i','s','i','t']) =
      String.mk ['F','o','r','e','i','g','n',' ','M','i','n','i','s','t','e','r',apos,'s',' ','V','i','s','i','t'] ∧
    normalize_title (String.mk ['F','o','r','e','i','g','n',' ','M','i','n','i','s','t','e','r',apos,'s',' ','V','i','s','i','t']) =
      String.mk ['F','o','r','e','i','g','n',' ','M','i','n','i','s','t','e','r',apos,'s',' ','V','i','s','i','t'] ∧
    normalize_title (String.mk (['“'] ++ ['F','o','r','e','i','g','n',' ','M','i','n','i','s','t','e','r',apos,'s',' ','V','i','s','i','t'] ++ ['”'])) =
      String.mk ['F','o','r','e','i','g','n',' ','M','i','n','i','s','t','e','r',apos,'s',' ','V','i','s','i','t'] ∧
    normalize_title_opt none = "" := by
  refine ⟨by decide, by decide, by decide, rfl⟩

/-- Claim C7: `public_page_url` maps page 1 to the base listing URL with a
trailing slash enforced, and every page number greater than 1 to the
`page/N/` path joined onto the slash-terminated base. -/
theorem public_page_url_spec (b : String) (n : Int) (h : 1 < n) :
    public_page_url b 1 = ensureSlash b ∧
    (public_page_url b 1).data.getLast? = some ('/') ∧
    public_page_url b n = urljoin (ensureSlash b) (("page/") ++ toString n ++ ("/")) ∧
    public_page_url b n = ensureSlash b ++ ("page/") ++ toString n ++ ("/") := by
  have hp1 : public_page_url b 1 = ensureSlash b := by
    unfold public_page_url
    rw [if_pos (by omega)]
  have hslash : (ensureSlash b).data.getLast? = some ('/') := by
    unfold ensureSlash
    by_cases hb : b.data.getLast? = some ('/')
    · rw [if_pos hb]
      exact hb
    · rw [if_neg hb]
      rw [String.data_append]
      exact List.getLast?_concat _
  have hp2 : public_page_url b n = urljoin (ensureSlash b) (("page/") ++ toString n ++ ("/")) := by
    unfold public_page_url
    rw [if_neg (by omega)]
  refine ⟨hp1, ?_, hp2, ?_⟩
  · rw [hp1]
    exact hslash
  · rw [hp2]
    unfold urljoin
    simp [String.append_assoc]

/-- Witness for C7 at a concrete base URL and page number. -/
theorem public_page_url_spec_witness :
    public_page_url ("http://x") 1 = ensureSlash ("http://x") ∧
    (public_page_url ("http://x") 1).data.getLast? = some ('/') ∧
    public_page_url ("http://x") 2 = urljoin (ensureSlash ("http://x")) (("page/") ++ toString (2 : Int) ++ ("/")) ∧
    public_page_url ("http://x") 2 = ensureSlash ("http://x") ++ ("page/") ++ toString (2 : Int) ++ ("/") :=
  public_page_url_spec ("http://x") 2 (by decide)

/-- Claim C4: the Backend Verifier applies its interpretation policy in source
order: an explicit no-content indicator returns false; otherwise a response
with neither results table nor results container raises the session-invalid
error; otherwise zero title links return false; otherwise the result is true
exactly when some title link, normalized and lowercased, equals the normalized
lowercased query title. -/
theorem cms_title_exists_policy (backend : String → CmsPage) (t : String) :
    ((backend (normalize_title t)).noContentCount > 0 →
      cms_title_exists backend t = Except.ok false) ∧
    ((backend (normalize_title t)).noContentCount = 0 →
      (backend (normalize_title t)).tableCount = 0 →
      (backend (normalize_title t)).viewContentCount = 0 →
      cms_title_exists backend t = Except.error CmsErr.sessionInvalid) ∧
    ((backend (normalize_title t)).noContentCount = 0 →
      ((backend (normalize_title t)).tableCount ≠ 0 ∨ (backend (normalize_title t)).viewContentCount ≠ 0) →
      (backend (normalize_title t)).titleLinks = [] →
      cms_title_exists backend t = Except.ok false) ∧
    ((backend (normalize_title t)).noContentCount = 0 →
      ((backend (normalize_title t)).tableCount ≠ 0 ∨ (backend (normalize_title t)).viewContentCount ≠ 0) →
      (backend (normalize_title t)).titleLinks ≠ [] →
      ((cms_title_exists backend t = Except.ok true ↔
          ∃ l ∈ (backend (normalize_title t)).titleLinks,
            pyLower (normalize_title l) = pyLower (normalize_title t)) ∧
        (cms_title_exists backend t = Except.ok false ↔
          ¬ ∃ l ∈ (backend (normalize_title t)).titleLinks,
            pyLower (normalize_title l) = pyLower (normalize_title t)))) := by
  refine ⟨?_, ?_, ?_, ?_⟩
  · intro h
    simp only [cms_title_exists]
    rw [if_pos h]
  · intro h1 h2 h3
    simp only [cms_title_exists]
    rw [if_neg (by omega), if_pos ⟨h2, h3⟩]
  · intro h1 h2 h3
    simp only [cms_title_exists]
    rw [if_neg (by omega), if_neg (by tauto), if_pos (by rw [h3]; rfl)]
  · intro h1 h2 h3
    simp only [cms_title_exists]
    rw [if_neg (by omega), if_neg (by tauto),
      if_neg (by rw [List.length_eq_zero]; exact h3)]
    simp only [Except.ok.injEq]
    have hs := scanLinks_iff (pyLower (normalize_title t)) (backend (normalize_title t)).titleLinks
    exact ⟨hs, by rw [Bool.eq_false_iff]; exact not_congr hs⟩

/-- Witness for C4's final policy case at a concrete backend and query. -/
theorem cms_title_exists_policy_witness :
    (cms_title_exists backendF ("hello world") = Except.ok true ↔
      ∃ l ∈ (backendF (normalize_title ("hello world"))).titleLinks,
        pyLower (normalize_title l) = pyLower (normalize_title ("hello world"))) ∧
    (cms_title_exists backendF ("hello world") = Except.ok false ↔
      ¬ ∃ l ∈ (backendF (normalize_title ("hello world"))).titleLinks,
        pyLower (normalize_title l) = pyLower (normalize_title ("hello world"))) :=
  (cms_title_exists_policy backendF ("hello world")).2.2.2 rfl (Or.inl (by decide)) (by decide)

/-- Claim C5: within one run, the in-memory Ledger set and the durable output
sink never diverge: whenever `runSync` completes, the final output file is the
initial file extended by some batch of appended records, and a key is in the
in-memory set exactly when it was loaded from the initial file at start or is
the lowercased title of a record this run appended. -/
theorem ledger_matches_sink (backend : String → CmsPage) (site : Int → PublicPage)
    (listBase : String) (s e : Int) (outFile : Option (List Row)) (limit : Option Int)
    (ca : String) (st : SyncState)
    (h : runSync backend site listBase s e outFile limit ca = Except.ok st) :
    ∃ new : List Row, st.fileRows = appendList outFile new ∧
      ∀ t : String, t ∈ st.already ↔
        (t ∈ load_existing_titles outFile ∨ t ∈ new.map (fun r => pyLower r.title)) := by
  have h0 : LedgerInv outFile (SyncState.mk outFile (load_existing_titles outFile) 0 0) :=
    ⟨[], rfl, fun t => by simp [appendList]⟩
  have h2 : (rangeList s e).foldlM (processPage backend site listBase limit ca)
      (SyncState.mk outFile (load_existing_titles outFile) 0 0) = Except.ok st := h
  exact foldlM_except_inv (LedgerInv outFile) _
    (fun s1 a s2 hs ha => processPage_inv hs ha) _ _ _ h0 h2

/-- Witness for C5: the two-entity scenario where the backend verifies `Alpha`
as present and `Beta` as absent persists exactly one record (for `Beta`)
whose key is the only in-memory addition. -/
theorem ledger_matches_sink_witness :
    ∃ new : List Row,
      (SyncState.mk (some [Row.mk ("Beta") ("http://b/ ") ("http://site/ ") ("d2") ("ts")])
        [("beta")] 2 1).fileRows = appendList none new ∧
      ∀ t : String,
        t ∈ (SyncState.mk (some [Row.mk ("Beta") ("http://b/ ") ("http://site/ ") ("d2") ("ts")])
          [("beta")] 2 1).already ↔
        (t ∈ load_existing_titles none ∨ t ∈ new.map (fun r => pyLower r.title)) :=
  ledger_matches_sink backendW siteW ("http://site/") 1 1 none none ("ts")
    (SyncState.mk (some [Row.mk ("Beta") ("http://b/ ") ("http://site/ ") ("d2") ("ts")])
      [("beta")] 2 1) rfl

/-- Claim C8: a public page whose content region is absent yields an empty
entity sequence, and the Driver's page loop proceeds from such a page directly
to the next page with its state unchanged. -/
theorem empty_region_continues (backend : String → CmsPage) (site : Int → PublicPage)
    (listBase : String) (limit : Option Int) (ca : String) (s e : Int) (st : SyncState)
    (h1 : (site s).main = none) (h2 : s ≤ e) :
    fetch_public_articles (site s) = [] ∧
    runPages backend site listBase limit ca s e st =
      runPages backend site listBase limit ca (s + 1) e st := by
  have hf : fetch_public_articles (site s) = [] := by
    unfold fetch_public_articles
    rw [h1]
  refine ⟨hf, ?_⟩
  unfold runPages
  rw [rangeList_cons h2, List.foldlM_cons]
  have hcons : considered limit ([] : List PublicArticle) = [] := by
    cases limit with
    | none => rfl
    | some k => simp [considered, pySlice]
  have hp : processPage backend site listBase limit ca st s = Except.ok st := by
    simp only [processPage]
    rw [hf, hcons]
    rfl
  rw [hp]
  rfl

/-- Witness for C8: a concrete two-page range whose first page lacks the
content region. -/
theorem empty_region_continues_witness :
    fetch_public_articles (siteE 1) = [] ∧
    runPages backendB siteE ("http://site/") none ("ts") 1 2 (SyncState.mk none [] 0 0) =
      runPages backendB siteE ("http://site/") none ("ts") (1 + 1) 2 (SyncState.mk none [] 0 0) :=
  empty_region_continues backendB siteE ("http://site/") none ("ts") 1 2
    (SyncState.mk none [] 0 0) rfl (by decide)

/-- Claim C9: with the per-page cap set, the Driver considers exactly the
prefix of the fetched sequence of length `min cap length`. -/
theorem per_page_cap_spec (items : List PublicArticle) (k : Int) (h : 0 ≤ k) :
    considered (some k) items = items.take k.toNat ∧
    (considered (some k) items).length = min k.toNat items.length := by
  have h1 : considered (some k) items = items.take k.toNat := by
    simp [considered, pySlice, if_pos h]
  exact ⟨h1, by rw [h1, List.length_take]⟩

/-- Witness for C9: cap 1 against a page yielding 3 entities considers exactly
1 entity, the first. -/
theorem per_page_cap_spec_witness :
    considered (some 1) [PublicArticle.mk ("A") ("ua") (""), PublicArticle.mk ("B") ("ub") (""),
        PublicArticle.mk ("C") ("uc") ("")] =
      [PublicArticle.mk ("A") ("ua") (""), PublicArticle.mk ("B") ("ub") (""),
        PublicArticle.mk ("C") ("uc") ("")].take (Int.toNat 1) ∧
    (considered (some 1) [PublicArticle.mk ("A") ("ua") (""), PublicArticle.mk ("B") ("ub") (""),
        PublicArticle.mk ("C") ("uc") ("")]).length =
      min (Int.toNat 1) ([PublicArticle.mk ("A") ("ua") (""), PublicArticle.mk ("B") ("ub") (""),
        PublicArticle.mk ("C") ("uc") ("")].length) :=
  per_page_cap_spec [PublicArticle.mk ("A") ("ua") (""), PublicArticle.mk ("B") ("ub") (""),
    PublicArticle.mk ("C") ("uc") ("")] 1 (by decide)

/-- Claim C10: `append_missing` stores the entity's URL fields with exactly one
trailing space appended when non-empty, leaves title, date and timestamp
unchanged, and the stored URL fields then differ from the extracted values. -/
theorem append_missing_fields (file : Option (List Row)) (r : Row)
    (h1 : r.publicUrl ≠ "") (h2 : r.publicListUrl ≠ "") :
    append_missing file r = some ((file.getD []) ++
      [Row.mk r.title (r.publicUrl ++ (" ")) (r.publicListUrl ++ (" ")) r.publicDate r.checkedAt]) ∧
    r.publicUrl ++ (" ") ≠ r.publicUrl ∧
    r.publicListUrl ++ (" ") ≠ r.publicListUrl := by
  refine ⟨?_, ?_, ?_⟩
  · rw [append_missing_eq, if_pos h1, if_pos h2]
  · intro hc
    have h3 := congrArg String.length hc
    rw [String.length_append] at h3
    have h4 : (" " : String).length = 1 := rfl
    rw [h4] at h3
    omega
  · intro hc
    have h3 := congrArg String.length hc
    rw [String.length_append] at h3
    have h4 : (" " : String).length = 1 := rfl
    rw [h4] at h3
    omega

/-- Witness for C10 at a concrete record and empty sink. -/
theorem append_missing_fields_witness :
    append_missing none (Row.mk ("T") ("http://a/") ("http://l/") ("d") ("c")) =
      some (((none : Option (List Row)).getD []) ++
        [Row.mk ("T") (("http://a/") ++ (" ")) (("http://l/") ++ (" ")) ("d") ("c")]) ∧
    ("http://a/") ++ (" ") ≠ ("http://a/") ∧
    ("http://l/") ++ (" ") ≠ ("http://l/") :=
  append_missing_fields none (Row.mk ("T") ("http://a/") ("http://l/") ("d") ("c"))
    (by decide) (by decide)

/-- Claim C1 evaluated at a failing input: each invocation derives a fresh
timestamp-suffixed output name, the ledger is loaded from that fresh
(nonexistent) file only, so a second run over an unchanged source and backend
re-records the same missing article instead of producing zero new records. -/
theorem rerun_records_duplicates :
    timestamped_csv_name ("missing_articles.csv") ("20260101_000000") ≠
      timestamped_csv_name ("missing_articles.csv") ("20260101_000500") ∧
    runSync backendB siteB ("http://site/") 1 1 none none ("t1") =
      Except.ok (SyncState.mk
        (some [Row.mk ("Beta") ("http://b/ ") ("http://site/ ") ("d2") ("t1")])
        [("beta")] 1 1) ∧
    (fun nm => if nm = timestamped_csv_name ("missing_articles.csv") ("20260101_000000")
        then some [Row.mk ("Beta") ("http://b/ ") ("http://site/ ") ("d2") ("t1")]
        else (none : Option (List Row)))
      (timestamped_csv_name ("missing_articles.csv") ("20260101_000500")) = none ∧
    load_existing_titles none = [] ∧
    runSync backendB siteB ("http://site/") 1 1 none none ("t2") =
      Except.ok (SyncState.mk
        (some [Row.mk ("Beta") ("http://b/ ") ("http://site/ ") ("d2") ("t2")])
        [("beta")] 1 1) := by
  refine ⟨by decide, rfl, by decide, rfl, rfl⟩
